import Mathlib

/-!
A shallow embedding of `assets/js/rics-store.js` (class `RICSStore`): the
item-catalog data model together with its `loadItems`, `loadSampleData`,
`filterItems`, `sortItems` and `escapeHtml` operations, and proofs of the
specified properties.

Modelling conventions:
* JSON numbers are modelled as rationals (`ℚ`); the catalog only compares
  them and tests `price > 0`, it never does arithmetic on them, and on the
  decimal literals occurring in the data, rational order agrees with
  IEEE-double order.
* Absent (`undefined`) JSON fields are modelled with `Option`.
* `Array.prototype.sort` is modelled as a stable sort (required by
  ECMAScript 2019 and later), via insertion sort.
* The comparator body of `sortItems` can throw a `TypeError`
  (`bValue.toLowerCase()` on a non-string); a throwing comparison is
  modelled as `none`.
-/

namespace RICS

/-- A JavaScript primitive value as it can appear in an item-record field:
a string, a number, a boolean, or `null`/`undefined` (conflated, as the
code only ever distinguishes them through `== null`, which both satisfy). -/
inductive JSVal where
  | str (s : String)
  | num (q : ℚ)
  | bool (b : Bool)
  | null
deriving DecidableEq, Repr

/-- An item record as built by `loadItems` / `loadSampleData`:
`{ defname, name, price, category, weight, quantityLimit, limitMode, mod,
enabled, karmaType }`. -/
structure ItemRecord where
  defname : String
  name : String
  price : ℚ
  category : String
  weight : ℚ
  quantityLimit : ℚ
  limitMode : Option String
  mod : Option String
  enabled : Bool
  karmaType : Option String
deriving DecidableEq, Repr

/-- A raw record of `StoreItems.json`, every field optional
(`none` = the key is absent, i.e. `undefined`). -/
structure RawItem where
  CustomName : Option String := none
  BasePrice : Option ℚ := none
  Category : Option String := none
  Weight : Option ℚ := none
  QuantityLimit : Option ℚ := none
  LimitMode : Option String := none
  Mod : Option String := none
  Enabled : Option Bool := none
  KarmaType : Option String := none
deriving DecidableEq, Repr

/-- JavaScript `v || dflt` for an optional string value: `undefined` and
the empty string are falsy. -/
def jsOrStr (v : Option String) (dflt : String) : String :=
  match v with
  | some s => if s = "" then dflt else s
  | none => dflt

/-- JavaScript `v || dflt` for an optional number value: `undefined` and
`0` are falsy (and `0 || 0 = 0`, so the `0` case is the identity). -/
def jsOrNum (v : Option ℚ) (dflt : ℚ) : ℚ :=
  match v with
  | some q => if q = 0 then dflt else q
  | none => dflt

/-- The per-entry body of the `Object.entries(data).map(...)` in
`loadItems`. -/
def mkItem (defname : String) (d : RawItem) : ItemRecord where
  defname := defname
  name := jsOrStr d.CustomName defname
  price := jsOrNum d.BasePrice 0
  category := jsOrStr d.Category "Misc"
  weight := jsOrNum d.Weight 0
  quantityLimit := jsOrNum d.QuantityLimit 0
  limitMode := d.LimitMode
  mod := d.Mod
  enabled := d.Enabled != some false
  karmaType := d.KarmaType

/-- The pipeline `Object.entries(data).map(...).filter(item => item.enabled && item.price > 0)`
of `loadItems`; a raw mapping is its entry list in key-insertion order. -/
def loadItems (entries : List (String × RawItem)) : List ItemRecord :=
  (entries.map fun e => mkItem e.1 e.2).filter
    fun it => it.enabled && decide (0 < it.price)

/-- The three literal records of `loadSampleData`. -/
def sampleItems : List ItemRecord :=
  [{ defname := "TextBook", name := "Textbook", price := 267,
     category := "Books", weight := 1.0, quantityLimit := 5,
     limitMode := some "OneStack", mod := some "Core",
     enabled := true, karmaType := none },
   { defname := "MedicineHerbal", name := "Herbal Medicine", price := 150,
     category := "Medical", weight := 0.1, quantityLimit := 25,
     limitMode := some "OneStack", mod := some "Core",
     enabled := true, karmaType := none },
   { defname := "Pemmican", name := "Pemmican", price := 80,
     category := "Food", weight := 0.05, quantityLimit := 100,
     limitMode := some "OneStack", mod := some "Core",
     enabled := true, karmaType := none }]

/-- A sortable column, i.e. a possible value of the `field` argument of
`sortItems` (a `data-sort` attribute naming an `ItemRecord` property). -/
inductive Field where
  | defname | name | price | category | weight
  | quantityLimit | limitMode | mod | enabled | karmaType
deriving DecidableEq, Repr

/-- JS `String.prototype.toLowerCase`, character by character (the data is
basic-latin, where this agrees with the Unicode mapping). -/
def jsToLower (s : String) : String :=
  ⟨s.data.map Char.toLower⟩

/-- JS `String.prototype.trim`: strip whitespace from both ends. -/
def jsTrim (s : String) : String :=
  ⟨((s.data.dropWhile Char.isWhitespace).reverse.dropWhile Char.isWhitespace).reverse⟩

/-- JS `<` on two character sequences: lexicographic by code unit
(`a < b`, or the heads agree and the tails compare). -/
def jsCharsLt : List Char → List Char → Bool
  | [], [] => false
  | [], _ :: _ => true
  | _ :: _, [] => false
  | a :: as, b :: bs =>
    if a < b then true
    else if b < a then false
    else jsCharsLt as bs

/-- JS `<` on strings. -/
def jsStrLt (a b : String) : Bool :=
  jsCharsLt a.data b.data

/-- Optional string fields as JS values: a missing field is `undefined`. -/
def jsOfOpt : Option String → JSVal
  | some s => .str s
  | none => .null

/-- The property read `a[field]` of the comparator. -/
def getField (it : ItemRecord) : Field → JSVal
  | .defname => .str it.defname
  | .name => .str it.name
  | .price => .num it.price
  | .category => .str it.category
  | .weight => .num it.weight
  | .quantityLimit => .num it.quantityLimit
  | .limitMode => jsOfOpt it.limitMode
  | .mod => jsOfOpt it.mod
  | .enabled => .bool it.enabled
  | .karmaType => jsOfOpt it.karmaType

/-- The null/undefined coercion at the top of the comparator:
`if (value == null) value = ''`. -/
def coerceNull : JSVal → JSVal
  | .null => .str ""
  | v => v

/-- ECMAScript `ToNumber` on a string, for decimal literals: leading and
trailing whitespace is trimmed, the empty string is `0`, an optional sign
followed by decimal digits (with an optional fractional part) is parsed,
anything else is `NaN` (`none`).  (The other numeric literal grammars —
hex, binary, exponents, `Infinity` — never occur in this program's data:
this function is only reached when a number is compared against a string,
which the record type rules out.) -/
def jsStrToNumber (s : String) : Option ℚ :=
  let t := jsTrim s
  if t = "" then some 0
  else
    let sign : ℚ := if t.startsWith "-" then -1 else 1
    let body := if t.startsWith "-" || t.startsWith "+" then t.drop 1 else t
    let digitsVal : List Char → Option ℕ := fun l =>
      l.foldl (fun acc c =>
        match acc with
        | none => none
        | some n => if c.isDigit then some (n * 10 + (c.toNat - 48)) else none)
        (some 0)
    match body.splitOn "." with
    | [ip] =>
      if ip = "" then none
      else (digitsVal ip.data).map fun n => sign * n
    | [ip, fp] =>
      if ip = "" && fp = "" then none
      else
        match digitsVal ip.data, digitsVal fp.data with
        | some n, some f => some (sign * ((n : ℚ) + (f : ℚ) / (10 ^ fp.length)))
        | _, _ => none
    | _ => none

/-- ECMAScript `ToNumber` on a primitive, as used by the relational
operators `<` and `>`; `none` is `NaN`.  (The `null` case is unreachable
in the comparator: `coerceNull` has already turned it into `''`.) -/
def jsToNumber : JSVal → Option ℚ
  | .num q => some q
  | .bool b => some (if b then 1 else 0)
  | .str s => jsStrToNumber s
  | .null => none

/-- The comparator body of `sortItems`, for a direction (`asc = true` for
`'asc'`): coerce `null`/`undefined` to `''`; if the left value is a string,
lower-case both sides (throwing — `none` — when the right value is not a
string) and compare; otherwise compare by `<`/`>`, which convert via
`ToNumber` and answer `false` on `NaN` (hence `0`). -/
def jsCompare (asc : Bool) (a0 b0 : JSVal) : Option Int :=
  match coerceNull a0, coerceNull b0 with
  | .str sa, .str sb =>
    let la := jsToLower sa
    let lb := jsToLower sb
    some (if jsStrLt la lb then (if asc then -1 else 1)
          else if jsStrLt lb la then (if asc then 1 else -1)
          else 0)
  | .str _, _ => none
  | aV, bV =>
    match jsToNumber aV, jsToNumber bV with
    | some qa, some qb =>
      some (if qa < qb then (if asc then -1 else 1)
            else if qb < qa then (if asc then 1 else -1)
            else 0)
    | _, _ => some 0

/-- The comparator applied to two records at a field. -/
def itemCmp (field : Field) (asc : Bool) (a b : ItemRecord) : Option Int :=
  jsCompare asc (getField a field) (getField b field)

/-- The comparator as a total function; the `none` (thrown) case never
arises on `ItemRecord`s — see `sortComparator_total`. -/
def itemCmpT (field : Field) (asc : Bool) (a b : ItemRecord) : Int :=
  (itemCmp field asc a b).getD 0

/-- The call `this.filteredItems.sort(comparator)`: `Array.prototype.sort` is a
stable sort placing `a` before `b` when `comparator(a, b) ≤ 0`, modelled
by insertion sort. -/
def jsSortBy (field : Field) (asc : Bool) (l : List ItemRecord) : List ItemRecord :=
  List.insertionSort (fun a b => itemCmpT field asc a b ≤ 0) l

/-- The sort state `this.currentSort`. -/
structure SortSpec where
  field : Field
  asc : Bool
deriving DecidableEq, Repr

/-- The mutable state of a `RICSStore` instance (the DOM-rendering parts
are outside the data model). -/
structure RICSStore where
  items : List ItemRecord
  filteredItems : List ItemRecord
  currentSort : SortSpec
deriving DecidableEq, Repr

/-- The method `sortItems(field, changeDirection = true)`: update `this.currentSort`
(flip the direction on the same field, else switch to the field ascending;
keep it unchanged when `changeDirection` is false), then stably sort
`this.filteredItems` by the comparator on the *argument* `field` with the
updated direction. -/
def sortItems (field : Field) (changeDirection : Bool) (s : RICSStore) : RICSStore :=
  let cs :=
    if changeDirection then
      if s.currentSort.field = field then
        { s.currentSort with asc := !s.currentSort.asc }
      else
        { field := field, asc := true }
    else s.currentSort
  { s with currentSort := cs,
           filteredItems := jsSortBy field cs.asc s.filteredItems }

/-- Does the character list `pat` occur contiguously inside the second
list?  (JS `String.prototype.includes`.) -/
def containsList (pat : List Char) : List Char → Bool
  | [] => pat.isEmpty
  | a :: rest => pat.isPrefixOf (a :: rest) || containsList pat rest

/-- JS `s.includes(pat)`. -/
def strIncludes (s pat : String) : Bool :=
  containsList pat.data s.data

/-- JS truthiness of a string: every string but `''` is truthy. -/
def jsTruthy (s : String) : Bool := s != ""

/-- The predicate of `this.items.filter(...)` in `filterItems`, for an
already lower-cased and trimmed term:
`item.name.toLowerCase().includes(term) || (item.category && ...) ||
(item.mod && ...) || (item.defname && ...)`. -/
def matchesTerm (it : ItemRecord) (term : String) : Bool :=
  strIncludes (jsToLower it.name) term
  || (jsTruthy it.category && strIncludes (jsToLower it.category) term)
  || (match it.mod with
      | some m => jsTruthy m && strIncludes (jsToLower m) term
      | none => false)
  || (jsTruthy it.defname && strIncludes (jsToLower it.defname) term)

/-- The method `filterItems(searchTerm)`: lower-case and trim the term; an empty term
restores `filteredItems` to a copy of `items`, a non-empty one filters
`items` by `matchesTerm`; then re-sort via
`sortItems(this.currentSort.field, false)`. -/
def filterItems (searchTerm : String) (s : RICSStore) : RICSStore :=
  let term := jsTrim (jsToLower searchTerm)
  let s1 :=
    if term = "" then { s with filteredItems := s.items }
    else { s with filteredItems := s.items.filter fun it => matchesTerm it term }
  sortItems s1.currentSort.field false s1

/-- The method `loadSampleData()`: install the built-in sample set as both the full
set and the filtered view. -/
def loadSampleData (s : RICSStore) : RICSStore :=
  { s with items := sampleItems, filteredItems := sampleItems }

/-- The whole of `loadItems()`: `none` is the `DataUnavailable` case (every
candidate path failed or returned malformed content, so the `try` block
threw); the `catch` falls back to `loadSampleData` instead of surfacing an
error.  With data, the working set is installed as both `items` and
`filteredItems`. -/
def loadStore (data : Option (List (String × RawItem))) (s : RICSStore) : RICSStore :=
  match data with
  | some entries =>
    let ws := loadItems entries
    { s with items := ws, filteredItems := ws }
  | none => loadSampleData s

/-- The apostrophe character (`U+0027`). -/
def apos : Char := Char.ofNat 39

/-- One step of `escapeHtml`: the effect of `.replace(/c/g, rep)` on a
single character. -/
def escStep (c : Char) (rep : String) (d : Char) : List Char :=
  if d = c then rep.data else [d]

/-- A global single-character regex replace,
`s.replace(/c/g, rep)`. -/
def replaceAllChar (c : Char) (rep : String) (s : String) : String :=
  ⟨s.data.flatMap (escStep c rep)⟩

/-- The function `escapeHtml(unsafe)` on a string: the five chained global replaces
(`&` first, then `<`, `>`, `"`, `'`).  (On a non-string argument the JS
function returns it unchanged; only the string branch is modelled.) -/
def escapeHtml (s : String) : String :=
  replaceAllChar apos "&#039;"
    (replaceAllChar '"' "&quot;"
      (replaceAllChar '>' "&gt;"
        (replaceAllChar '<' "&lt;"
          (replaceAllChar '&' "&amp;" s))))

/-- Is the value a string?  (`typeof v === 'string'`.) -/
def JSVal.isStrB : JSVal → Bool
  | .str _ => true
  | _ => false

/-- The filter predicate as the specification words it: the term occurs
case-insensitively in displayName (`name`), category, sourceMod (`mod`)
or id (`defname`); an absent field does not match.  (Stated from the
spec's words, for comparison with the code's `matchesTerm`.) -/
def specMatches (term : String) (it : ItemRecord) : Bool :=
  strIncludes (jsToLower it.name) term
  || strIncludes (jsToLower it.category) term
  || (match it.mod with
      | some m => strIncludes (jsToLower m) term
      | none => false)
  || strIncludes (jsToLower it.defname) term

/-- The character-wise description of `escapeHtml`: each of the five
special characters becomes its entity, every other character stays. -/
def escChar (c : Char) : List Char :=
  if c = '&' then "&amp;".data
  else if c = '<' then "&lt;".data
  else if c = '>' then "&gt;".data
  else if c = '"' then "&quot;".data
  else if c = apos then "&#039;".data
  else [c]

/-- The tails of the five entities, i.e. what must follow a `&` in
well-escaped output. -/
def entityTails : List (List Char) :=
  ["amp;".data, "lt;".data, "gt;".data, "quot;".data, "#039;".data]

/-- Output well-formedness stated by the spec: no literal `<`, `>`, `"`
or `'` anywhere, and every `&` starts one of the five entities. -/
def wellEscaped : List Char → Bool
  | [] => true
  | c :: rest =>
    (if c = '&' then entityTails.any fun t => t.isPrefixOf rest
     else !(c = '<' || c = '>' || c = '"' || c = apos)) && wellEscaped rest

/-- Two records whose order by `name` is the reverse of their order by
`price`, to separate "sort by the given field" from "sort by the current
sort field". -/
def cexA : ItemRecord :=
  { defname := "a", name := "b", price := 1, category := "Misc", weight := 0,
    quantityLimit := 0, limitMode := none, mod := none, enabled := true,
    karmaType := none }

def cexB : ItemRecord :=
  { defname := "b", name := "a", price := 2, category := "Misc", weight := 0,
    quantityLimit := 0, limitMode := none, mod := none, enabled := true,
    karmaType := none }

/-- A store holding `cexA, cexB` with the constructor's initial sort state
`(name, ascending)`. -/
def cexStore : RICSStore :=
  { items := [cexA, cexB], filteredItems := [cexA, cexB],
    currentSort := ⟨.name, true⟩ }

/-- Three records with prices `80, 267, 150` in that pre-sort order (the
spec's sort example). -/
def priceDemo : List ItemRecord :=
  [{ defname := "a", name := "a", price := 80, category := "Misc", weight := 0,
     quantityLimit := 0, limitMode := none, mod := none, enabled := true,
     karmaType := none },
   { defname := "b", name := "b", price := 267, category := "Misc", weight := 0,
     quantityLimit := 0, limitMode := none, mod := none, enabled := true,
     karmaType := none },
   { defname := "c", name := "c", price := 150, category := "Misc", weight := 0,
     quantityLimit := 0, limitMode := none, mod := none, enabled := true,
     karmaType := none }]

/-- The price-example store, with the constructor's initial sort state. -/
def priceDemoStore : RICSStore :=
  { items := priceDemo, filteredItems := priceDemo, currentSort := ⟨.name, true⟩ }

/-! ### Helper lemmas -/

/-- The three-way integer comparison that the comparator computes, in
ascending direction, on two comparable keys. -/
def cmpInt {β : Type} [LinearOrder β] (x y : β) : Int :=
  if x < y then -1 else if y < x then 1 else 0

theorem cmpInt_nonpos_iff {β : Type} [LinearOrder β] (x y : β) :
    cmpInt x y ≤ 0 ↔ x ≤ y := by
  unfold cmpInt
  split_ifs with h1 h2
  · exact iff_of_true (by norm_num) h1.le
  · exact iff_of_false (by norm_num) (not_le.mpr h2)
  · exact iff_of_true le_rfl (le_of_not_lt h2)

theorem cmpInt_nonpos_total {β : Type} [LinearOrder β] (x y : β) :
    cmpInt x y ≤ 0 ∨ cmpInt y x ≤ 0 := by
  rcases le_total x y with h | h
  · exact Or.inl ((cmpInt_nonpos_iff x y).mpr h)
  · exact Or.inr ((cmpInt_nonpos_iff y x).mpr h)

/-- The executable lexicographic comparison agrees with the lexicographic
order on character lists. -/
theorem jsCharsLt_iff : ∀ as bs : List Char, jsCharsLt as bs = true ↔ as < bs
  | [], [] => iff_of_false (by simp [jsCharsLt]) (by intro h; cases h)
  | [], b :: bs => ⟨fun _ => List.Lex.nil, fun _ => rfl⟩
  | a :: as, [] => iff_of_false (by simp [jsCharsLt]) (by intro h; cases h)
  | a :: as, b :: bs => by
    unfold jsCharsLt
    by_cases h1 : a < b
    · rw [if_pos h1]
      exact ⟨fun _ => List.Lex.rel h1, fun _ => rfl⟩
    · by_cases h2 : b < a
      · simp only [if_neg h1, if_pos h2]
        refine iff_of_false (by simp) fun h => ?_
        cases h with
        | cons h3 => exact absurd h2 (lt_irrefl _)
        | rel h3 => exact absurd h3 h1
      · have hab : a = b := le_antisymm (le_of_not_lt h2) (le_of_not_lt h1)
        subst hab
        simp only [if_neg h1, if_neg h2]
        rw [jsCharsLt_iff as bs]
        constructor
        · exact fun h => List.Lex.cons h
        · intro h
          cases h with
          | cons h3 => exact h3
          | rel h3 => exact absurd h3 h1

/-- The comparison `jsStrLt` agrees with the string order. -/
theorem jsStrLt_iff (a b : String) : jsStrLt a b = true ↔ a < b := by
  rw [String.lt_iff_toList_lt]
  exact jsCharsLt_iff a.data b.data

/-- For every field the comparator (in ascending direction) computes the
three-way comparison of a linear-order key: lower-cased strings for the
string-valued fields (with `null`/`undefined` read as `''`), the number
itself for the numeric ones, and `0`/`1` for the boolean one. -/
theorem itemCmpT_true_eq (f : Field) (a b : ItemRecord) :
    itemCmpT f true a b =
      match f with
      | .defname => cmpInt (jsToLower a.defname) (jsToLower b.defname)
      | .name => cmpInt (jsToLower a.name) (jsToLower b.name)
      | .price => cmpInt a.price b.price
      | .category => cmpInt (jsToLower a.category) (jsToLower b.category)
      | .weight => cmpInt a.weight b.weight
      | .quantityLimit => cmpInt a.quantityLimit b.quantityLimit
      | .limitMode =>
        cmpInt (jsToLower (a.limitMode.getD "")) (jsToLower (b.limitMode.getD ""))
      | .mod => cmpInt (jsToLower (a.mod.getD "")) (jsToLower (b.mod.getD ""))
      | .enabled =>
        cmpInt (if a.enabled then (1 : ℚ) else 0) (if b.enabled then (1 : ℚ) else 0)
      | .karmaType =>
        cmpInt (jsToLower (a.karmaType.getD "")) (jsToLower (b.karmaType.getD "")) := by
  have hstr : ∀ sa sb : String,
      (jsCompare true (.str sa) (.str sb)).getD 0 = cmpInt (jsToLower sa) (jsToLower sb) := by
    intro sa sb
    simp only [jsCompare, coerceNull, cmpInt, Option.getD, jsStrLt_iff]
    split_ifs <;> rfl
  have hnum : ∀ qa qb : ℚ,
      (jsCompare true (.num qa) (.num qb)).getD 0 = cmpInt qa qb := by
    intro qa qb
    simp only [jsCompare, coerceNull, jsToNumber, cmpInt, Option.getD]
    split_ifs <;> rfl
  have hbool : ∀ x y : Bool,
      (jsCompare true (.bool x) (.bool y)).getD 0 =
        cmpInt (if x then (1 : ℚ) else 0) (if y then (1 : ℚ) else 0) := by
    intro x y
    simp only [jsCompare, coerceNull, jsToNumber, cmpInt, Option.getD]
    split_ifs <;> rfl
  have hopt : ∀ ma mb : Option String,
      (jsCompare true (jsOfOpt ma) (jsOfOpt mb)).getD 0 =
        cmpInt (jsToLower (ma.getD "")) (jsToLower (mb.getD "")) := by
    intro ma mb
    cases ma <;> cases mb <;>
      simpa only [jsOfOpt, Option.getD] using hstr _ _
  cases f <;>
    simp only [itemCmpT, itemCmp, getField] <;>
    first
      | exact hstr _ _
      | exact hnum _ _
      | exact hbool _ _
      | exact hopt _ _

theorem itemCmpT_nonpos_total (f : Field) (a b : ItemRecord) :
    itemCmpT f true a b ≤ 0 ∨ itemCmpT f true b a ≤ 0 := by
  cases f <;> simp only [itemCmpT_true_eq] <;> exact cmpInt_nonpos_total _ _

theorem itemCmpT_nonpos_trans (f : Field) (a b c : ItemRecord)
    (h1 : itemCmpT f true a b ≤ 0) (h2 : itemCmpT f true b c ≤ 0) :
    itemCmpT f true a c ≤ 0 := by
  cases f <;>
    simp only [itemCmpT_true_eq, cmpInt_nonpos_iff] at h1 h2 ⊢ <;>
    exact le_trans h1 h2

/-- In ascending direction the stable sort produces a sequence ordered by
the comparator. -/
theorem jsSortBy_sorted_asc (f : Field) (l : List ItemRecord) :
    List.Sorted (fun a b => itemCmpT f true a b ≤ 0) (jsSortBy f true l) := by
  haveI : IsTotal ItemRecord (fun a b => itemCmpT f true a b ≤ 0) :=
    ⟨fun a b => itemCmpT_nonpos_total f a b⟩
  haveI : IsTrans ItemRecord (fun a b => itemCmpT f true a b ≤ 0) :=
    ⟨fun a b c => itemCmpT_nonpos_trans f a b c⟩
  exact List.sorted_insertionSort _ l

theorem filter_orderedInsert_pos {α : Type} (r : α → α → Prop) [DecidableRel r]
    (p : α → Bool) (x : α) (l : List α) (hx : p x = true)
    (hl : ∀ y, p y = true → r x y) :
    (List.orderedInsert r x l).filter p = x :: l.filter p := by
  induction l with
  | nil => simp [List.orderedInsert, hx]
  | cons y l ih =>
    by_cases hr : r x y
    · simp only [List.orderedInsert, if_pos hr, List.filter_cons, hx]
      rfl
    · have hpy : p y = false := by
        cases hy : p y
        · rfl
        · exact absurd (hl y hy) hr
      simp only [List.orderedInsert, if_neg hr, List.filter_cons, hpy]
      simpa using ih

theorem filter_orderedInsert_neg {α : Type} (r : α → α → Prop) [DecidableRel r]
    (p : α → Bool) (x : α) (l : List α) (hx : p x = false) :
    (List.orderedInsert r x l).filter p = l.filter p := by
  induction l with
  | nil => simp [List.orderedInsert, hx]
  | cons y l ih =>
    by_cases hr : r x y
    · simp only [List.orderedInsert, if_pos hr, List.filter_cons, hx]
      simp
    · simp only [List.orderedInsert, if_neg hr, List.filter_cons]
      rw [ih]

/-- Stability of the modelled `Array.prototype.sort`: if every pair of
records satisfying `p` is related (in particular if they are ties), the
`p`-subsequence of the output is the `p`-subsequence of the input. -/
theorem insertionSort_filter_of_ties {α : Type} (r : α → α → Prop) [DecidableRel r]
    (p : α → Bool) (hties : ∀ a b, p a = true → p b = true → r a b) :
    ∀ l : List α, (List.insertionSort r l).filter p = l.filter p
  | [] => rfl
  | x :: l => by
    rw [List.insertionSort]
    by_cases hx : p x = true
    · rw [filter_orderedInsert_pos r p x _ hx fun y hy => hties x y hx hy,
        insertionSort_filter_of_ties r p hties l]
      simp [List.filter_cons, hx]
    · have hx' : p x = false := by
        revert hx
        cases p x <;> simp
      rw [filter_orderedInsert_neg r p x _ hx',
        insertionSort_filter_of_ties r p hties l]
      simp [List.filter_cons, hx']

theorem sortItems_items (f : Field) (cd : Bool) (s : RICSStore) :
    (sortItems f cd s).items = s.items := rfl

theorem sortItems_noToggle (f : Field) (s : RICSStore) :
    sortItems f false s =
      { s with filteredItems := jsSortBy f s.currentSort.asc s.filteredItems } := rfl

theorem filterItems_eq (t : String) (s : RICSStore) :
    filterItems t s =
      { s with filteredItems :=
          (jsSortBy s.currentSort.field s.currentSort.asc
            (if jsTrim (jsToLower t) = "" then s.items
             else s.items.filter fun it => matchesTerm it (jsTrim (jsToLower t)))) } := by
  unfold filterItems
  by_cases h : jsTrim (jsToLower t) = "" <;> simp only [h, if_pos, if_neg, ite_true,
    ite_false, Bool.false_eq_true, not_false_eq_true, sortItems_noToggle]

/-- A nonempty pattern does not occur in the empty string. -/
theorem strIncludes_empty (term : String) (ht : term ≠ "") :
    strIncludes "" term = false := by
  have hd : term.data ≠ [] := fun hd => ht (String.ext hd)
  unfold strIncludes containsList
  cases hterm : term.data with
  | nil => exact absurd hterm hd
  | cons c cs => rfl

/-- For a nonempty search term, the JS truthiness guards of the filter
predicate are redundant: the empty string cannot contain the term anyway. -/
theorem guard_includes_eq (term : String) (ht : term ≠ "") (f : String) :
    (jsTruthy f && strIncludes (jsToLower f) term) = strIncludes (jsToLower f) term := by
  by_cases hf : f = ""
  · subst hf
    rw [show jsToLower "" = "" from rfl, strIncludes_empty term ht]
    rfl
  · have : jsTruthy f = true := by
      simpa [jsTruthy] using hf
    rw [this, Bool.true_and]

/-- For a nonempty term the code's guarded predicate agrees with the
spec's unguarded one. -/
theorem matchesTerm_eq_spec (term : String) (ht : term ≠ "") (it : ItemRecord) :
    matchesTerm it term = specMatches term it := by
  unfold matchesTerm specMatches
  cases it.mod with
  | none => simp only [guard_includes_eq term ht]
  | some m => simp only [guard_includes_eq term ht]

/-- The five chained single-character replaces act character-wise. -/
theorem escSteps_eq (d : Char) :
    ((((escStep '&' "&amp;" d).flatMap (escStep '<' "&lt;")).flatMap
        (escStep '>' "&gt;")).flatMap (escStep '"' "&quot;")).flatMap
      (escStep apos "&#039;") = escChar d := by
  by_cases h1 : d = '&'
  · subst h1; rfl
  by_cases h2 : d = '<'
  · subst h2; rfl
  by_cases h3 : d = '>'
  · subst h3; rfl
  by_cases h4 : d = '"'
  · subst h4; rfl
  by_cases h5 : d = apos
  · subst h5; rfl
  simp [escStep, escChar, h1, h2, h3, h4, h5]

/-- The function `escapeHtml` is the character-wise entity substitution. -/
theorem escapeHtml_data (s : String) :
    (escapeHtml s).data = s.data.flatMap escChar := by
  show ((((s.data.flatMap (escStep '&' "&amp;")).flatMap
      (escStep '<' "&lt;")).flatMap (escStep '>' "&gt;")).flatMap
      (escStep '"' "&quot;")).flatMap (escStep apos "&#039;") =
    s.data.flatMap escChar
  rw [List.flatMap_assoc, List.flatMap_assoc, List.flatMap_assoc, List.flatMap_assoc]
  exact congrArg s.data.flatMap (funext fun d => by
    rw [← escSteps_eq d, List.flatMap_assoc, List.flatMap_assoc, List.flatMap_assoc])

/-- Appending an escaped character in front of well-escaped output keeps
it well-escaped. -/
theorem wellEscaped_escChar_append (c : Char) (rest : List Char)
    (h : wellEscaped rest = true) : wellEscaped (escChar c ++ rest) = true := by
  by_cases h1 : c = '&'
  · subst h1
    simp [escChar, wellEscaped, entityTails, List.isPrefixOf, h, apos]
  by_cases h2 : c = '<'
  · subst h2
    simp [escChar, wellEscaped, entityTails, List.isPrefixOf, h, apos]
  by_cases h3 : c = '>'
  · subst h3
    simp [escChar, wellEscaped, entityTails, List.isPrefixOf, h, apos]
  by_cases h4 : c = '"'
  · subst h4
    simp [escChar, wellEscaped, entityTails, List.isPrefixOf, h, apos]
  by_cases h5 : c = apos
  · subst h5
    simp [escChar, wellEscaped, entityTails, List.isPrefixOf, h, apos]
  · simp [escChar, wellEscaped, h1, h2, h3, h4, h5, h]

theorem wellEscaped_flatMap (l : List Char) :
    wellEscaped (l.flatMap escChar) = true := by
  induction l with
  | nil => rfl
  | cons c l ih =>
    rw [List.flatMap_cons]
    exact wellEscaped_escChar_append c _ ih

/-! ### The claims -/

/-- Claim C1: every record of the working set built by `loadItems` is
enabled (its `enabled` flag is not `false`) and has price strictly greater
than `0`; records with price `≤ 0` or `enabled = false` never enter it. -/
theorem loadItems_only_enabled_positive (entries : List (String × RawItem))
    (it : ItemRecord) (h : it ∈ loadItems entries) :
    it.enabled = true ∧ 0 < it.price := by
  unfold loadItems at h
  rw [List.mem_filter] at h
  have h2 := h.2
  simp only [Bool.and_eq_true, decide_eq_true_eq] at h2
  exact h2

theorem loadItems_only_enabled_positive_witness :
    (mkItem "Gold" { BasePrice := some 5 }).enabled = true ∧
      0 < (mkItem "Gold" { BasePrice := some 5 }).price :=
  loadItems_only_enabled_positive [("Gold", { BasePrice := some 5 })] _ (by decide)

/-- Claim C2: `filterItems` lower-cases and trims the term; an empty term
makes the filtered view the full working set, a nonempty one makes it
exactly the records of the working set whose displayName, category,
sourceMod or id contains the term as a case-insensitive substring (an
absent field never matches); the current sort field and direction are then
re-applied, without toggling, and the sort state is unchanged. -/
theorem filterItems_spec (searchTerm : String) (s : RICSStore) :
    (filterItems searchTerm s).filteredItems =
      (jsSortBy s.currentSort.field s.currentSort.asc
        (if jsTrim (jsToLower searchTerm) = "" then s.items
         else s.items.filter fun it =>
           specMatches (jsTrim (jsToLower searchTerm)) it)) ∧
    (filterItems searchTerm s).currentSort = s.currentSort := by
  rw [filterItems_eq]
  refine ⟨?_, rfl⟩
  by_cases h : jsTrim (jsToLower searchTerm) = ""
  · rw [if_pos h, if_pos h]
  · rw [if_neg h, if_neg h]
    exact congrArg _ (List.filter_congr fun it _ =>
      matchesTerm_eq_spec _ h it)

/-- Claim C3: the comparator coerces `null`/`undefined` to the empty
string; on strings it depends only on the lower-cased values
(case-insensitive comparison); on numbers it compares numerically; the
descending direction is the exact pointwise reversal of the ascending
comparison; the sort is stable (records that are pairwise ties keep their
pre-sort relative order), and in ascending direction it orders the output
by the comparator. -/
theorem sortComparator_properties :
    (∀ (asc : Bool) (v : JSVal),
        jsCompare asc .null v = jsCompare asc (.str "") v ∧
        jsCompare asc v .null = jsCompare asc v (.str "")) ∧
    (∀ (asc : Bool) (sa sb sa' sb' : String), jsToLower sa = jsToLower sa' →
        jsToLower sb = jsToLower sb' →
        jsCompare asc (.str sa) (.str sb) = jsCompare asc (.str sa') (.str sb')) ∧
    (∀ qa qb : ℚ,
        (qa < qb → jsCompare true (.num qa) (.num qb) = some (-1)) ∧
        (qa = qb → jsCompare true (.num qa) (.num qb) = some 0) ∧
        (qb < qa → jsCompare true (.num qa) (.num qb) = some 1)) ∧
    (∀ (asc : Bool) (v w : JSVal),
        jsCompare (!asc) v w = (jsCompare asc v w).map fun z => -z) ∧
    (∀ (f : Field) (asc : Bool) (l : List ItemRecord) (p : ItemRecord → Bool),
        (∀ a b, p a = true → p b = true → itemCmpT f asc a b = 0) →
        (jsSortBy f asc l).filter p = l.filter p) ∧
    (∀ (f : Field) (l : List ItemRecord),
        List.Sorted (fun a b => itemCmpT f true a b ≤ 0) (jsSortBy f true l)) := by
  have hrev : ∀ v w : JSVal,
      jsCompare false v w = (jsCompare true v w).map fun z => -z := by
    intro v w
    match hcv : coerceNull v, hcw : coerceNull w with
    | .null, _ => exact absurd hcv (by cases v <;> simp [coerceNull])
    | _, .null => exact absurd hcw (by cases w <;> simp [coerceNull])
    | .str sa, .str sb =>
      simp only [jsCompare, hcv, hcw, Option.map]
      split_ifs <;> simp_all
    | .str sa, .num qb | .str sa, .bool bb =>
      simp only [jsCompare, hcv, hcw]
      rfl
    | .num qa, .str sb | .bool ba, .str sb =>
      simp only [jsCompare, hcv, hcw, jsToNumber]
      cases h2 : jsStrToNumber sb <;>
        first
        | rfl
        | (simp only [Option.map]; split_ifs <;> simp_all)
    | .num qa, .num qb | .num qa, .bool bb | .bool ba, .num qb | .bool ba, .bool bb =>
      simp only [jsCompare, hcv, hcw, jsToNumber, Option.map]
      split_ifs <;> simp_all
  refine ⟨fun asc v => ⟨rfl, rfl⟩, ?_, ?_, ?_, ?_, fun f l => jsSortBy_sorted_asc f l⟩
  · intro asc sa sb sa' sb' h1 h2
    simp only [jsCompare, coerceNull, h1, h2]
  · intro qa qb
    refine ⟨fun h => ?_, fun h => ?_, fun h => ?_⟩
    · simp [jsCompare, coerceNull, jsToNumber, h]
    · subst h
      simp [jsCompare, coerceNull, jsToNumber, lt_irrefl]
    · simp [jsCompare, coerceNull, jsToNumber, h, lt_asymm h]
  · intro asc v w
    cases asc
    · simp only [Bool.not_false, hrev v w]
      cases jsCompare true v w <;> simp
    · simp only [Bool.not_true]
      exact hrev v w
  · intro f asc l p hp
    exact insertionSort_filter_of_ties _ p
      (fun a b ha hb => (hp a b ha hb).le) l

theorem sortComparator_properties_witness :
    jsCompare true (.str "ABC") (.str "abc") = jsCompare true (.str "abc") (.str "abc") ∧
    jsCompare true (.num 80) (.num 150) = some (-1) ∧
    (jsSortBy .price true sampleItems).filter (fun it => it.price == 150) =
      sampleItems.filter (fun it => it.price == 150) := by
  refine ⟨?_, ?_, ?_⟩
  · exact sortComparator_properties.2.1 true "ABC" "abc" "abc" "abc" (by decide) rfl
  · exact (sortComparator_properties.2.2.1 80 150).1 (by norm_num)
  · refine sortComparator_properties.2.2.2.2.1 .price true sampleItems
      (fun it => it.price == 150) ?_
    intro a b ha hb
    have ha' : a.price = 150 := by simpa using ha
    have hb' : b.price = 150 := by simpa using hb
    rw [itemCmpT_true_eq]
    simp [cmpInt, ha', hb']

/-- Claim C4, counterexample to the wording "if toggleDirection is false,
… the view is merely reordered by the current state": with the sort state
`(name, ascending)`, `sortItems price false` leaves the state unchanged
but produces the order by the argument field `price` (`[cexA, cexB]`),
while ordering by the current state would give `[cexB, cexA]`. -/
theorem sortItems_noToggle_counterexample :
    (sortItems .price false cexStore).currentSort = cexStore.currentSort ∧
    (sortItems .price false cexStore).filteredItems = [cexA, cexB] ∧
    jsSortBy cexStore.currentSort.field cexStore.currentSort.asc
      cexStore.filteredItems = [cexB, cexA] ∧
    (sortItems .price false cexStore).filteredItems ≠
      jsSortBy cexStore.currentSort.field cexStore.currentSort.asc
        cexStore.filteredItems :=
  ⟨by decide, by decide, by decide, by decide⟩

/-- Claim C4 (amended): `sortItems` updates the sort state as claimed
(same field with toggle flips the direction, a different field with toggle
selects it ascending, no toggle leaves the state unchanged), and reorders
the view by the *argument* field with the updated direction (when called
without toggling, the program always passes the current sort field, so the
view is then ordered by the current state); `sort("price", true)` twice on
prices `[80, 267, 150]` yields `[80, 150, 267]` and then `[267, 150, 80]`. -/
theorem sortItems_state_update (f : Field) (cd : Bool) (s : RICSStore) :
    ((sortItems f cd s).currentSort =
      (if cd then
        (if s.currentSort.field = f then
          ⟨s.currentSort.field, !s.currentSort.asc⟩
        else ⟨f, true⟩)
       else s.currentSort) ∧
    (sortItems f cd s).filteredItems =
      jsSortBy f (sortItems f cd s).currentSort.asc s.filteredItems) ∧
    ((sortItems .price true priceDemoStore).filteredItems.map
        fun it => it.price) = [80, 150, 267] ∧
    ((sortItems .price true (sortItems .price true priceDemoStore)).filteredItems.map
        fun it => it.price) = [267, 150, 80] := by
  refine ⟨⟨?_, ?_⟩, by decide, by decide⟩
  · cases cd
    · rfl
    · by_cases h : s.currentSort.field = f
      · simp only [sortItems, if_pos h, ite_true]
      · simp only [sortItems, if_neg h, ite_true]
  · cases cd
    · rfl
    · by_cases h : s.currentSort.field = f
      · simp only [sortItems, if_pos h, ite_true]
      · simp only [sortItems, if_neg h, ite_true]

/-- Claim C5: `loadItems` substitutes defaults for missing optional
fields — display name ← the identifier, price/weight/quantityLimit ← `0`,
category ← `"Misc"`, enabled ← treated as enabled — and the mapping
`{"TextBook": {"BasePrice": 267, "Category": "Books"}}` yields exactly one
record, with displayName `"TextBook"` and price `267`. -/
theorem loadItems_defaults (dn : String) (d : RawItem) :
    (mkItem dn { d with CustomName := none }).name = dn ∧
    (mkItem dn { d with BasePrice := none }).price = 0 ∧
    (mkItem dn { d with Weight := none }).weight = 0 ∧
    (mkItem dn { d with QuantityLimit := none }).quantityLimit = 0 ∧
    (mkItem dn { d with Category := none }).category = "Misc" ∧
    (mkItem dn { d with Enabled := none }).enabled = true ∧
    loadItems [("TextBook", { BasePrice := some 267, Category := some "Books" })] =
      [{ defname := "TextBook", name := "TextBook", price := 267,
         category := "Books", weight := 0, quantityLimit := 0,
         limitMode := none, mod := none, enabled := true, karmaType := none }] :=
  ⟨rfl, rfl, rfl, rfl, rfl, rfl, by decide⟩

/-- Claim C6: when the data source is unavailable (`none`), loading falls
back to the built-in sample set of exactly the three literal records
TextBook, MedicineHerbal and Pemmican, installed as both the working set
and the filtered view; the operation is total (no error reaches the user)
and ends in a displayable state. -/
theorem load_fallback_sample (s : RICSStore) :
    (loadStore none s).items =
      [{ defname := "TextBook", name := "Textbook", price := 267,
         category := "Books", weight := 1.0, quantityLimit := 5,
         limitMode := some "OneStack", mod := some "Core",
         enabled := true, karmaType := none },
       { defname := "MedicineHerbal", name := "Herbal Medicine", price := 150,
         category := "Medical", weight := 0.1, quantityLimit := 25,
         limitMode := some "OneStack", mod := some "Core",
         enabled := true, karmaType := none },
       { defname := "Pemmican", name := "Pemmican", price := 80,
         category := "Food", weight := 0.05, quantityLimit := 100,
         limitMode := some "OneStack", mod := some "Core",
         enabled := true, karmaType := none }] ∧
    (loadStore none s).filteredItems = (loadStore none s).items ∧
    (loadStore none s).items.length = 3 ∧
    (loadStore none s).currentSort = s.currentSort :=
  ⟨rfl, rfl, rfl, rfl⟩

/-- Claim C7: neither `filterItems` nor `sortItems` mutates the loaded
full set: `items` keeps the same elements in the same order, only the copy
`filteredItems` is rebuilt. -/
theorem filter_sort_preserve_items :
    (∀ (term : String) (s : RICSStore), (filterItems term s).items = s.items) ∧
    (∀ (f : Field) (cd : Bool) (s : RICSStore), (sortItems f cd s).items = s.items) :=
  ⟨fun term s => by rw [filterItems_eq], fun f cd s => rfl⟩

/-- Claim C8: filtering by any term and then by the empty term restores
the filtered view to the full working set, up to the current sort order. -/
theorem filter_empty_restores_full (t : String) (s : RICSStore) :
    (filterItems "" (filterItems t s)).filteredItems =
      jsSortBy s.currentSort.field s.currentSort.asc s.items := by
  rw [filterItems_eq t s, filterItems_eq]
  rfl

/-- Claim C9: `escapeHtml` replaces every occurrence of `&`, `<`, `>`,
`"` and `'` by its entity (`&amp;`, `&lt;`, `&gt;`, `&quot;`, `&#039;`),
so the output contains no literal `<`, `>`, `"` or `'` and every `&` in it
starts one of those five entities. -/
theorem escapeHtml_escapes (s : String) :
    (escapeHtml s).data = s.data.flatMap escChar ∧
    wellEscaped (escapeHtml s).data = true := by
  refine ⟨escapeHtml_data s, ?_⟩
  rw [escapeHtml_data s]
  exact wellEscaped_flatMap s.data

/-- Claim C10: on values of the record type the comparator never applies
a string operation to a non-string: for every field, the null-coerced left
value is a string exactly when the right one is, and the comparison always
returns a result (`itemCmp` is never `none`, i.e. `sortItems` cannot
throw), for all records and both directions. -/
theorem sortComparator_total (f : Field) (asc : Bool) (a b : ItemRecord) :
    (coerceNull (getField a f)).isStrB = (coerceNull (getField b f)).isStrB ∧
    (itemCmp f asc a b).isSome = true := by
  have hopt : ∀ ma mb : Option String,
      (coerceNull (jsOfOpt ma)).isStrB = (coerceNull (jsOfOpt mb)).isStrB ∧
      (jsCompare asc (jsOfOpt ma) (jsOfOpt mb)).isSome = true := by
    intro ma mb
    cases ma <;> cases mb <;> exact ⟨rfl, rfl⟩
  cases f <;> first | exact ⟨rfl, rfl⟩ | exact hopt _ _

end RICS
